import Mathlib

/-!
Verification of the CheXaid configuration resolver and evaluation
orchestrator (`src/args/base_arg_parser.py`, `src/test.py`) against its
natural-language specification.

The Python code is shallowly embedded: dictionaries / argparse namespaces
become association lists over a `PyVal` value type, exceptions become an
explicit `PyErr` error type via `Except`, and the filesystem (checkpoint
sidecar files) becomes an explicit lookup function.  Definitions follow the
source line by line; doc comments cite the file and line ranges embedded.
-/

/-- Model of a Python runtime value as it appears in the argument
namespaces: `None`, booleans, integers, strings, the float NaN used as the
"missing" sentinel (`np.nan`, `test.py:19`), lists, and dictionaries /
namespaces (association lists).  The nested positions use `List` directly,
mirroring Python's untyped containers. -/
inductive PyVal where
  | none
  | bool (b : Bool)
  | int (n : Int)
  | str (s : String)
  | nan
  | list (xs : List PyVal)
  | dict (d : List (String × PyVal))

/-- Model of the Python exceptions the embedded code can raise. -/
inductive PyErr where
  | nameError
  | attributeError
  | keyError
  | typeError
  | fileNotFoundError
  | zeroDivisionError
  | assertionError
  | valueError (msg : String)
  | exception (msg : String)
  deriving DecidableEq

/-- A Python `dict` (or `argparse.Namespace.__dict__`): an insertion-ordered
association list from string keys to values. -/
abbrev Dict := List (String × PyVal)

/-- Dictionary / attribute lookup: first entry with the given key. -/
def dget : Dict → String → Option PyVal
  | [], _ => Option.none
  | (k, v) :: rest, key => if k = key then some v else dget rest key

/-- Dictionary / attribute assignment, Python semantics: update the value in
place when the key is present (keeping its insertion position), otherwise
append the new entry at the end. -/
def dset : Dict → String → PyVal → Dict
  | [], key, v => [(key, v)]
  | (k, w) :: rest, key, v =>
    if k = key then (k, v) :: rest else (k, w) :: dset rest key v

/-- Dictionary deletion (`del d[key]`): removes every entry with the key
(on a well-formed dict there is at most one). -/
def ddel : Dict → String → Dict
  | [], _ => []
  | (k, w) :: rest, key => if k = key then ddel rest key else (k, w) :: ddel rest key

/-- The keys of a dict in insertion order. -/
def dkeys (d : Dict) : List String := d.map Prod.fst

theorem dget_ddel_ne (d : Dict) (k k' : String) (h : k ≠ k') :
    dget (ddel d k) k' = dget d k' := by
  induction d with
  | nil => simp [ddel]
  | cons p rest ih =>
    obtain ⟨k₀, w⟩ := p
    by_cases h₀ : k₀ = k
    · subst h₀; simp [ddel, dget, h, ih]
    · by_cases h₁ : k₀ = k' <;> simp [ddel, dget, h₀, h₁, ih, Ne.symm h]

/-- `set(a).issubset(set(b))` on task sequences: every element of `a` occurs
in `b` (`base_arg_parser.py:149` and the five analogous checks). -/
def subsetCheck (a b : List String) : Bool := a.all (fun x => b.contains x)

theorem subsetCheck_iff (a b : List String) : subsetCheck a b = true ↔ a ⊆ b := by
  simp [subsetCheck, List.subset_def, List.all_eq_true]

/-!
`BaseArgParser.are_tasks_missing` (`src/args/base_arg_parser.py:129-172`).

The native task sequences come from `dataset.TASK_SEQUENCES`, a module that
is not part of the two embedded source files; the registry is therefore a
parameter `TS` mapping a sequence name to its ordered label list (the
argument parser restricts `--task_sequence` to registry members, so the
lookup is modelled as total).  Training fractions are command-line floats
compared with `== 1`; they are modelled as `Option ℚ` (`None` compares
unequal to `1`, exactly as in Python).
-/

/-- Direct translation of `are_tasks_missing`: for each of the six datasets,
in source order (Stanford, NIH, TCGA, Pocus, Hocus, Pulm), if the dataset is
evaluated or its training fraction equals 1 and the target sequence is not a
subset of the dataset's native sequence, return `true`; otherwise fall
through and return `false`. -/
def are_tasks_missing (TS : String → List String) (task_sequence : String)
    (eval_su eval_nih eval_pocus eval_hocus eval_pulm eval_tcga : Bool)
    (su_train_frac nih_train_frac pocus_train_frac hocus_train_frac
      pulm_train_frac tcga_train_frac : Option ℚ) : Bool :=
  let ts := TS task_sequence
  if (eval_su || su_train_frac == some 1) && !(subsetCheck ts (TS "stanford")) then true
  else if (eval_nih || nih_train_frac == some 1) && !(subsetCheck ts (TS "nih")) then true
  else if (eval_tcga || tcga_train_frac == some 1) && !(subsetCheck ts (TS "tcga")) then true
  else if (eval_pocus || pocus_train_frac == some 1) && !(subsetCheck ts (TS "pocus")) then true
  else if (eval_hocus || hocus_train_frac == some 1) && !(subsetCheck ts (TS "hocus")) then true
  else if (eval_pulm || pulm_train_frac == some 1) && !(subsetCheck ts (TS "pulm")) then true
  else false

/-- C3: `are_tasks_missing` returns `true` if and only if at least one of the
six datasets that is flagged for evaluation or whose training fraction is
exactly 1 has a native task sequence that is not a superset of the target
task sequence; any single violating dataset forces the result `true`, and
otherwise the result is `false`. -/
theorem c3_are_tasks_missing_iff (TS : String → List String) (t : String)
    (su nih pocus hocus pulm tcga : Bool)
    (fsu fnih fpocus fhocus fpulm ftcga : Option ℚ) :
    are_tasks_missing TS t su nih pocus hocus pulm tcga
        fsu fnih fpocus fhocus fpulm ftcga = true ↔
      (((su = true ∨ fsu = some 1) ∧ ¬ TS t ⊆ TS "stanford") ∨
       ((nih = true ∨ fnih = some 1) ∧ ¬ TS t ⊆ TS "nih") ∨
       ((tcga = true ∨ ftcga = some 1) ∧ ¬ TS t ⊆ TS "tcga") ∨
       ((pocus = true ∨ fpocus = some 1) ∧ ¬ TS t ⊆ TS "pocus") ∨
       ((hocus = true ∨ fhocus = some 1) ∧ ¬ TS t ⊆ TS "hocus") ∨
       ((pulm = true ∨ fpulm = some 1) ∧ ¬ TS t ⊆ TS "pulm")) := by
  unfold are_tasks_missing
  simp only [← subsetCheck_iff]
  split_ifs with h1 h2 h3 h4 h5 h6 <;>
    simp_all [Bool.and_eq_true, Bool.or_eq_true, beq_iff_eq,
      Bool.not_eq_true', Bool.not_eq_true]

/-!
The post-merge validation segment of `BaseArgParser.process_args`
(`src/args/base_arg_parser.py:304-347`): checkpoint requirement in test
mode, divisibility checks, metric-name checks, and dataset selection.
-/

/-- Boolean test that `needle` is a prefix of `hay` (character lists). -/
def isPrefixB : List Char → List Char → Bool
  | [], _ => true
  | _ :: _, [] => false
  | a :: as, b :: bs => a == b && isPrefixB as bs

/-- Boolean substring search, structural recursion over the haystack. -/
def hasSubAux : List Char → List Char → Bool
  | [], needle => needle.isEmpty
  | c :: rest, needle => isPrefixB needle (c :: rest) || hasSubAux rest needle

/-- Python's `needle in hay` on strings: substring containment. -/
def strContains (hay needle : String) : Bool := hasSubAux hay.data needle.data

/-- The metric-direction consistency predicate of
`base_arg_parser.py:329-331`: the assertion passes iff the metric name
contains `"loss"` with `maximize_metric` false, or contains `"AUROC"` or
`"accuracy"` with `maximize_metric` true. -/
def metric_direction_ok (metric_name : String) (maximize_metric : Bool) : Bool :=
  (strContains metric_name "loss" && !maximize_metric) ||
  (strContains metric_name "AUROC" && maximize_metric) ||
  (strContains metric_name "accuracy" && maximize_metric)

/-- The Stanford-only allow-list for `--metric_name`
(`base_arg_parser.py:320-321`). -/
def stanford_metric_names : List String :=
  ["stanford-valid_loss", "stanford-train-dev_loss",
   "stanford-valid_5loss", "stanford-valid_competition_avg_AUROC"]

/-- The NIH-only allow-list for `--metric_name` (`base_arg_parser.py:324`). -/
def nih_metric_names : List String :=
  ["nih-valid_weighted_loss", "nih-valid_loss"]

/-- The typed slice of the resolved argument namespace consulted by the
validation segment (`base_arg_parser.py:304-347`).  `ckpt_paths` is the
post-merge list (`[]` models both Python `None` and the empty list, whose
truthiness coincides); `has_test_2d` models `hasattr(args, 'test_2d')`. -/
structure FlatArgs where
  is_training : Bool
  ckpt_path : String
  ckpt_paths : List String
  has_test_2d : Bool
  test_2d : Bool
  config_path : Option String
  batch_size : Int
  iters_per_eval : Int
  iters_per_save : Int
  metric_name : String
  maximize_metric : Bool
  eval_su : Bool
  eval_nih : Bool
  eval_tcga : Bool
  eval_pocus : Bool
  eval_hocus : Bool
  eval_pulm : Bool

/-- The dataset label attached by the selection chain
(`base_arg_parser.py:334-345`): the first true flag in source order. -/
def datasetNameOf (a : FlatArgs) : String :=
  if a.eval_su = true then "stanford"
  else if a.eval_nih = true then "nih"
  else if a.eval_tcga = true then "tcga"
  else if a.eval_pocus = true then "pocus"
  else if a.eval_hocus = true then "hocus"
  else if a.eval_pulm = true then "pulm"
  else ""

/-- Direct translation of `base_arg_parser.py:304-347`, the checks run
after the checkpoint merge, in source order.  Python raises
`ZeroDivisionError` on `% 0`, modelled by the explicit zero tests placed
exactly where the corresponding `%` is evaluated; `assert` failures become
`assertionError`.  On success the attached `dataset_name` is returned. -/
def process_checks (a : FlatArgs) : Except PyErr String :=
  if a.is_training = false ∧ a.ckpt_path = "" ∧ a.ckpt_paths = [] ∧
      ¬(a.has_test_2d = true ∧ a.test_2d = true) ∧ a.config_path = Option.none then
    .error (.valueError "Must specify --ckpt_path in test mode.")
  else if a.is_training = true ∧ a.batch_size = 0 then
    .error .zeroDivisionError
  else if a.is_training = true ∧ a.iters_per_eval % a.batch_size ≠ 0 then
    .error (.valueError "iters_per_eval must be divisible by batch_size.")
  else if a.is_training = true ∧ a.iters_per_eval = 0 then
    .error .zeroDivisionError
  else if a.is_training = true ∧ a.iters_per_save % a.iters_per_eval ≠ 0 then
    .error (.valueError "iters_per_save must be divisible by iters_per_eval.")
  else if a.is_training = true ∧ a.eval_su = true ∧ a.eval_nih = false ∧
      a.metric_name ∉ stanford_metric_names then
    .error .assertionError
  else if a.is_training = true ∧ a.eval_nih = true ∧ a.eval_su = false ∧
      a.metric_name ∉ nih_metric_names then
    .error .assertionError
  else if a.is_training = true ∧
      metric_direction_ok a.metric_name a.maximize_metric = false then
    .error .assertionError
  else if a.eval_su = true then .ok "stanford"
  else if a.eval_nih = true then .ok "nih"
  else if a.eval_tcga = true then .ok "tcga"
  else if a.eval_pocus = true then .ok "pocus"
  else if a.eval_hocus = true then .ok "hocus"
  else if a.eval_pulm = true then .ok "pulm"
  else .error (.exception "need to select a dataset to evaluate on")

/-- Training-mode argument set on which claim C6 fails: the metric name
contains both `"loss"` and `"AUROC"`, both Stanford and NIH are evaluated
(so the allow-list assertions are skipped and only a warning is printed),
and the direction assertion passes through its `"AUROC"` disjunct. -/
def c6args : FlatArgs :=
  { is_training := true, ckpt_path := "", ckpt_paths := [],
    has_test_2d := false, test_2d := false, config_path := Option.none,
    batch_size := 16, iters_per_eval := 16, iters_per_save := 16,
    metric_name := "valid_loss_AUROC", maximize_metric := true,
    eval_su := true, eval_nih := true, eval_tcga := false,
    eval_pocus := false, eval_hocus := false, eval_pulm := false }

/-- C6 counterexample: a training-mode metric name containing `"loss"` with
`maximize_metric = true` does not necessarily fail — `"valid_loss_AUROC"`
also contains `"AUROC"`, so the assertion's second disjunct accepts it and
resolution succeeds, contradicting the claim's universal "a name containing
'loss' with maximize_metric true fails". -/
theorem c6_counterexample :
    c6args.is_training = true ∧
    strContains c6args.metric_name "loss" = true ∧
    c6args.maximize_metric = true ∧
    process_checks c6args = .ok "stanford" := by
  refine ⟨rfl, by decide, rfl, ?_⟩
  rfl

/-- C6 (amended): in training mode, with the divisibility checks passing and
both Stanford and NIH evaluated (so the metric-name allow-lists do not
apply), resolution succeeds exactly when the metric name matches its
direction per the source's disjunction — `"loss"` with minimize, or
`"AUROC"`/`"accuracy"` with maximize — and fails with an assertion error on
any metric name matching none of the three; in particular
`"nih-valid_loss"` with maximize fails and
`"stanford-valid_competition_avg_AUROC"` with maximize passes. -/
theorem c6_metric_direction (a : FlatArgs)
    (htrain : a.is_training = true)
    (hsu : a.eval_su = true) (hnih : a.eval_nih = true)
    (hb : a.batch_size ≠ 0)
    (hdiv1 : a.iters_per_eval % a.batch_size = 0)
    (hipe : a.iters_per_eval ≠ 0)
    (hdiv2 : a.iters_per_save % a.iters_per_eval = 0) :
    (metric_direction_ok a.metric_name a.maximize_metric = true →
       process_checks a = .ok "stanford") ∧
    (metric_direction_ok a.metric_name a.maximize_metric = false →
       process_checks a = .error .assertionError) ∧
    metric_direction_ok "nih-valid_loss" true = false ∧
    metric_direction_ok "stanford-valid_competition_avg_AUROC" true = true := by
  refine ⟨?_, ?_, by decide, by decide⟩ <;> intro hdir <;>
    unfold process_checks <;>
    simp [htrain, hsu, hnih, hb, hdiv1, hipe, hdiv2, hdir]

/-- C6 witness: the amended theorem applied to the concrete training-mode
argument set `c6args`, whose metric name passes the direction check. -/
theorem c6_metric_direction_witness :
    (metric_direction_ok c6args.metric_name c6args.maximize_metric = true →
       process_checks c6args = .ok "stanford") ∧
    (metric_direction_ok c6args.metric_name c6args.maximize_metric = false →
       process_checks c6args = .error .assertionError) ∧
    metric_direction_ok "nih-valid_loss" true = false ∧
    metric_direction_ok "stanford-valid_competition_avg_AUROC" true = true :=
  c6_metric_direction c6args rfl rfl rfl (by decide) (by decide) (by decide) (by decide)

/-- Training-mode argument set with none of the six dataset flags on which
claim C8 fails: the evaluation-cadence divisibility check (100 % 16 ≠ 0)
aborts resolution before the dataset-selection check is reached. -/
def c8args : FlatArgs :=
  { is_training := true, ckpt_path := "", ckpt_paths := [],
    has_test_2d := false, test_2d := false, config_path := Option.none,
    batch_size := 16, iters_per_eval := 100, iters_per_save := 100,
    metric_name := "nih-valid_loss", maximize_metric := false,
    eval_su := false, eval_nih := false, eval_tcga := false,
    eval_pocus := false, eval_hocus := false, eval_pulm := false }

/-- C8 counterexample: an argument set with none of the six per-dataset
evaluation flags set whose resolution fails with the divisibility error,
not the "must select a dataset" error, contradicting the claim's "for every
argument set in which none of the six flags is set, resolution fails with
the must-select-a-dataset error". -/
theorem c8_counterexample :
    c8args.eval_su = false ∧ c8args.eval_nih = false ∧ c8args.eval_tcga = false ∧
    c8args.eval_pocus = false ∧ c8args.eval_hocus = false ∧ c8args.eval_pulm = false ∧
    process_checks c8args =
      .error (.valueError "iters_per_eval must be divisible by batch_size.") ∧
    process_checks c8args ≠
      .error (.exception "need to select a dataset to evaluate on") := by
  refine ⟨rfl, rfl, rfl, rfl, rfl, rfl, by rfl, ?_⟩
  intro h
  rw [show process_checks c8args =
    .error (.valueError "iters_per_eval must be divisible by batch_size.")
    from by rfl] at h
  cases h

/-- In evaluation mode, once the checkpoint-presence check passes, the
remaining checks reduce to the dataset-selection chain of
`base_arg_parser.py:334-347` (all training-mode checks are skipped). -/
theorem process_checks_eval (a : FlatArgs)
    (hev : a.is_training = false)
    (hck : ¬(a.ckpt_path = "" ∧ a.ckpt_paths = [] ∧
      ¬(a.has_test_2d = true ∧ a.test_2d = true) ∧ a.config_path = Option.none)) :
    process_checks a =
      (if a.eval_su = true then .ok "stanford"
       else if a.eval_nih = true then .ok "nih"
       else if a.eval_tcga = true then .ok "tcga"
       else if a.eval_pocus = true then .ok "pocus"
       else if a.eval_hocus = true then .ok "hocus"
       else if a.eval_pulm = true then .ok "pulm"
       else .error (.exception "need to select a dataset to evaluate on")) := by
  have hnotr : ∀ P : Prop, ¬(a.is_training = true ∧ P) := by
    intro P hc
    rw [hev] at hc
    exact absurd hc.1 (by decide)
  unfold process_checks
  rw [if_neg (fun hc => hck hc.2), if_neg (hnotr _), if_neg (hnotr _),
    if_neg (hnotr _), if_neg (hnotr _), if_neg (hnotr _), if_neg (hnotr _),
    if_neg (hnotr _)]

theorem ok_of_ite_error {c : Prop} [Decidable c] {e : PyErr}
    {rest : Except PyErr String} {d : String}
    (h : (if c then Except.error e else rest) = .ok d) : rest = .ok d := by
  by_cases hc : c
  · rw [if_pos hc] at h
    cases h
  · rwa [if_neg hc] at h

/-- C8 (amended): with none of the six dataset flags set, resolution never
succeeds, and when the checks preceding dataset selection pass (in test
mode, a checkpoint, 2D-test flag or ensemble-config path is supplied; in
training mode, the divisibility checks and the metric-name direction check
pass) the failure is precisely the "need to select a dataset to evaluate
on" error, raised inside configuration resolution — hence before any model
loading; whenever resolution succeeds, the attached dataset label is the
one determined by the first set flag in source order (Stanford, NIH, TCGA,
Pocus, Hocus, Pulm); and an evaluation-mode argument set passing the
checkpoint check with at least one flag set always resolves to exactly
that label. -/
theorem c8_dataset_selection (a : FlatArgs) :
    ((a.eval_su = false ∧ a.eval_nih = false ∧ a.eval_tcga = false ∧
      a.eval_pocus = false ∧ a.eval_hocus = false ∧ a.eval_pulm = false) →
      (∀ d, process_checks a ≠ .ok d) ∧
      (((a.is_training = false ∧
          ¬(a.ckpt_path = "" ∧ a.ckpt_paths = [] ∧
            ¬(a.has_test_2d = true ∧ a.test_2d = true) ∧
            a.config_path = Option.none)) ∨
        (a.is_training = true ∧ a.batch_size ≠ 0 ∧
          a.iters_per_eval % a.batch_size = 0 ∧ a.iters_per_eval ≠ 0 ∧
          a.iters_per_save % a.iters_per_eval = 0 ∧
          metric_direction_ok a.metric_name a.maximize_metric = true)) →
        process_checks a =
          .error (.exception "need to select a dataset to evaluate on"))) ∧
    (∀ d, process_checks a = .ok d → d = datasetNameOf a) ∧
    ((a.is_training = false ∧
      ¬(a.ckpt_path = "" ∧ a.ckpt_paths = [] ∧
        ¬(a.has_test_2d = true ∧ a.test_2d = true) ∧
        a.config_path = Option.none) ∧
      (a.eval_su = true ∨ a.eval_nih = true ∨ a.eval_tcga = true ∨
       a.eval_pocus = true ∨ a.eval_hocus = true ∨ a.eval_pulm = true)) →
      process_checks a = .ok (datasetNameOf a)) := by
  refine ⟨?_, ?_, ?_⟩
  · rintro ⟨h1, h2, h3, h4, h5, h6⟩
    constructor
    · intro d
      unfold process_checks
      simp only [h1, h2, h3, h4, h5, h6]
      split_ifs <;>
        first
          | (intro hc; exact Except.noConfusion hc)
          | simp_all
    · rintro (⟨hev, hck⟩ | ⟨htr, hb, hd1, hipe, hd2, hdir⟩)
      · rw [process_checks_eval a hev hck]
        simp [h1, h2, h3, h4, h5, h6]
      · unfold process_checks
        simp [htr, hb, hd1, hipe, hd2, hdir, h1, h2, h3, h4, h5, h6]
  · intro d h
    unfold process_checks at h
    have h1 := ok_of_ite_error h
    have h2 := ok_of_ite_error h1
    have h3 := ok_of_ite_error h2
    have h4 := ok_of_ite_error h3
    have h5 := ok_of_ite_error h4
    have h6 := ok_of_ite_error h5
    have h7 := ok_of_ite_error h6
    have h8 := ok_of_ite_error h7
    clear h h1 h2 h3 h4 h5 h6 h7
    split_ifs at h8 with hf1 hf2 hf3 hf4 hf5 hf6
    · cases h8
      simp [datasetNameOf, hf1]
    · cases h8
      simp [datasetNameOf, hf1, hf2]
    · cases h8
      simp [datasetNameOf, hf1, hf2, hf3]
    · cases h8
      simp [datasetNameOf, hf1, hf2, hf3, hf4]
    · cases h8
      simp [datasetNameOf, hf1, hf2, hf3, hf4, hf5]
    · cases h8
      simp [datasetNameOf, hf1, hf2, hf3, hf4, hf5, hf6]
  · rintro ⟨hev, hck, hflag⟩
    rw [process_checks_eval a hev hck]
    unfold datasetNameOf
    split_ifs <;> simp_all

/-- A flag-free training-mode argument set that passes every check before
dataset selection. -/
def c8argsOk : FlatArgs :=
  { c8args with iters_per_eval := 16, iters_per_save := 16 }

/-- An evaluation-mode argument set supplying a checkpoint and the NIH
evaluation flag. -/
def c8evalArgs : FlatArgs :=
  { is_training := false, ckpt_path := "m.pt", ckpt_paths := [],
    has_test_2d := false, test_2d := false, config_path := Option.none,
    batch_size := 16, iters_per_eval := 16, iters_per_save := 16,
    metric_name := "nih-valid_loss", maximize_metric := false,
    eval_su := false, eval_nih := true, eval_tcga := false,
    eval_pocus := false, eval_hocus := false, eval_pulm := false }

/-- C8 witness: the amended theorem applied to a concrete flag-free
training-mode argument set whose earlier checks pass (yielding the
must-select-a-dataset error) and to a concrete flagged evaluation-mode set
(resolving to the first set flag's label, NIH). -/
theorem c8_dataset_selection_witness :
    process_checks c8argsOk =
      .error (.exception "need to select a dataset to evaluate on") ∧
    process_checks c8evalArgs = .ok (datasetNameOf c8evalArgs) ∧
    datasetNameOf c8evalArgs = "nih" :=
  ⟨((c8_dataset_selection c8argsOk).1 ⟨rfl, rfl, rfl, rfl, rfl, rfl⟩).2
      (Or.inr ⟨rfl, by decide, by decide, by decide, by decide, by decide⟩),
   (c8_dataset_selection c8evalArgs).2.2
      ⟨rfl, by decide, Or.inr (Or.inl rfl)⟩,
   by decide⟩

/-!
The checkpoint-derived merge of `BaseArgParser.process_args`
(`src/args/base_arg_parser.py:248-288`), executed on every evaluation-mode
resolution.  The filesystem is a lookup `fs` from a file path to the parsed
sidecar `args.json` stored next to a checkpoint.
-/

/-- Python truthiness of the modelled values. -/
def truthy : PyVal → Bool
  | .none => false
  | .bool b => b
  | .int n => decide (n ≠ 0)
  | .str s => decide (s ≠ "")
  | .nan => true
  | .list xs => !xs.isEmpty
  | .dict d => !d.isEmpty

/-- Extract a string value. -/
def pyStr? : PyVal → Option String
  | .str s => some s
  | _ => Option.none

/-- `os.path.dirname`: the portion of the path before its last slash
(empty when there is no slash). -/
def dirname (s : String) : String :=
  ⟨(((s.data.reverse.dropWhile (fun c => c ≠ '/')).drop 1)).reverse⟩

/-- `os.path.join` of a directory and a file name. -/
def joinPath (d f : String) : String := if d = "" then f else d ++ "/" ++ f

/-- The path of the sidecar configuration saved next to a checkpoint:
`os.path.join(os.path.dirname(ckpt_path), 'args.json')`
(`base_arg_parser.py:258`). -/
def sidecarPathFor (ckpt : String) : String := joinPath (dirname ckpt) "args.json"

/-- Parsed contents of a checkpoint sidecar `args.json`: its `model_args`,
`transform_args` and `data_args` groups (JSON objects, so keys are
duplicate-free). -/
structure Sidecar where
  model_args : Dict
  transform_args : Dict
  data_args : Dict

/-- The three parameter groups of the resolved configuration that the
checkpoint-derived merge reads and mutates. -/
structure GroupArgs where
  model_args : Dict
  transform_args : Dict
  data_args : Dict

/-- `for key in src: setattr(dst, key, src[key])` — overlay every field of
`src` onto `base`, in insertion order, overwriting existing values. -/
def overlay (base src : Dict) : Dict :=
  src.foldl (fun acc kv => dset acc kv.1 kv.2) base

/-- Direct translation of `base_arg_parser.py:248-288`.  Notes on fidelity:
the local `ckpt_path` is assigned only inside the two branches of the
`if/elif` at lines 250-256, so when `args.model_args.ckpt_path` is falsy and
`args.model_args.ckpt_paths` is falsy the read at line 258 raises
`UnboundLocalError` (a `NameError`); there is no guard on the external
ensemble configuration path or the CSV-replay flag.  A truthy non-list
`ckpt_paths` cannot arise from the parser (`nargs='*'`) and is modelled as a
`TypeError` from the subscript at line 255.  A missing sidecar file is the
`open` failure at line 259; `del model_args['ckpt_path']` (line 264) raises
`KeyError` when the stored group lacks the field. -/
def checkpoint_merge (fs : String → Option Sidecar) (a : GroupArgs) :
    Except PyErr GroupArgs :=
  match dget a.model_args "ckpt_path", dget a.model_args "ckpt_paths" with
  | Option.none, _ => .error .attributeError
  | some _, Option.none => .error .attributeError
  | some cp, some cps =>
    let branch : Except PyErr (PyVal × List PyVal) :=
      if truthy cp then .ok (cp, [])
      else if truthy cps then
        match cps with
        | .list (x :: xs) => .ok (x, x :: xs)
        | _ => .error .typeError
      else .error .nameError
    match branch with
    | .error e => .error e
    | .ok (cpv, ckptPathsList) =>
      match pyStr? cpv with
      | Option.none => .error .typeError
      | some p =>
        match fs (sidecarPathFor p) with
        | Option.none => .error .fileNotFoundError
        | some sc =>
          match dget sc.model_args "ckpt_path" with
          | Option.none => .error .keyError
          | some _ =>
            let ma := overlay a.model_args (ddel sc.model_args "ckpt_path")
            let ma := dset ma "ckpt_paths" (.list ckptPathsList)
            let ta := overlay a.transform_args sc.transform_args
            let da := overlay a.data_args sc.data_args
            .ok ⟨ma, ta, da⟩

theorem dkeys_cons (k : String) (v : PyVal) (d : Dict) :
    dkeys ((k, v) :: d) = k :: dkeys d := rfl

theorem dget_eq_none_iff (d : Dict) (k : String) :
    dget d k = Option.none ↔ k ∉ dkeys d := by
  induction d with
  | nil => simp [dget, dkeys]
  | cons p rest ih =>
    obtain ⟨k₀, w⟩ := p
    by_cases h : k₀ = k
    · subst h
      simp [dget, dkeys_cons]
    · simp [dget, dkeys_cons, h, ih, Ne.symm h]

theorem dkeys_ddel (d : Dict) (k : String) :
    dkeys (ddel d k) = (dkeys d).filter (fun x => x ≠ k) := by
  induction d with
  | nil => rfl
  | cons p rest ih =>
    obtain ⟨k₀, w⟩ := p
    by_cases h : k₀ = k
    · subst h
      simp [ddel, dkeys_cons, ih]
    · simp [ddel, dkeys_cons, h, ih]

theorem nodup_dkeys_ddel (d : Dict) (k : String) (h : (dkeys d).Nodup) :
    (dkeys (ddel d k)).Nodup := by
  rw [dkeys_ddel]
  exact h.filter _

/-- C1 (code bug): in evaluation mode the checkpoint-derived merge is
attempted unconditionally — the code never consults the external-ensemble
configuration path or the CSV-replay flag — and when no checkpoint path and
no checkpoint-path list is supplied the local `ckpt_path` of
`base_arg_parser.py:250-256` is never bound, so line 258 raises
`UnboundLocalError` instead of proceeding without the sidecar (even though
the later check at lines 307-310 explicitly permits evaluation runs that
supply only `--config_path` or only the 2D-test flag). -/
theorem c1_eval_merge_unbound (fs : String → Option Sidecar) (a : GroupArgs)
    (hcp : dget a.model_args "ckpt_path" = some (.str ""))
    (hcps : dget a.model_args "ckpt_paths" = some .none) :
    checkpoint_merge fs a = .error .nameError := by
  unfold checkpoint_merge
  rw [hcp, hcps]
  simp [truthy]

/-- The evaluation-mode argument groups of a run supplying only an external
ensemble configuration path: default empty `ckpt_path`, default `None`
`ckpt_paths`. -/
def c1args : GroupArgs :=
  ⟨[("ckpt_path", .str ""), ("ckpt_paths", .none)], [], []⟩

/-- C1 witness: the failing input evaluated concretely — the merge step
raises the unbound-local error rather than skipping the sidecar. -/
theorem c1_eval_merge_unbound_witness :
    checkpoint_merge (fun _ => Option.none) c1args = .error .nameError :=
  c1_eval_merge_unbound (fun _ => Option.none) c1args rfl rfl

/-- A loaded model as the orchestrator sees it: the task sequence it was
trained against. -/
structure LoadedModel where
  task_sequence : List String

/-- Modelled from the spec: the single-checkpoint loader
`ModelSaver.load_model` (saver module, repository code not under `src/`)
loads exactly one model from the checkpoint store and fails fast when the
checkpoint file is missing; the store is an explicit lookup `env`. -/
def load_model (env : String → Option LoadedModel) (ckpt_path : String) :
    Except PyErr LoadedModel :=
  match env ckpt_path with
  | some m => .ok m
  | Option.none => .error .fileNotFoundError

/-- Direct translation of `load_multi_model` (`src/test.py:154-172`): loads
the AP and PA models through the single-checkpoint loader, then line 159
evaluates `args.gpu_ids` — but no name `args` is in scope in the function
(its parameters are `multi_args`, `model_args`, `data_args`, `gpu_ids`), so
a `NameError` is raised before the lateral model is loaded, before the
task-sequence assertions at lines 162-163, and before any composition. -/
def load_multi_model (env : String → Option LoadedModel)
    (ap_ckpt_path pa_ckpt_path lateral_ckpt_path : String) :
    Except PyErr LoadedModel :=
  match load_model env ap_ckpt_path with
  | .error e => .error e
  | .ok _ =>
    match load_model env pa_ckpt_path with
    | .error e => .error e
    | .ok _ => .error .nameError

/-- C5 (code bug): the multi-view composite loader never returns a composed
model — for every checkpoint store and every triple of view checkpoint
paths the result is an error, and when both frontal loads succeed the error
is precisely the `NameError` of the out-of-scope `args` at `test.py:159` —
so the claimed task-sequence consistency check and composed handle are
unreachable. -/
theorem c5_load_multi_model_never_ok (env : String → Option LoadedModel)
    (ap pa lat : String) :
    (∀ m, load_multi_model env ap pa lat ≠ .ok m) ∧
    ((∃ m, load_model env ap = .ok m) → (∃ m, load_model env pa = .ok m) →
      load_multi_model env ap pa lat = .error .nameError) := by
  unfold load_multi_model load_model
  cases env ap <;> cases env pa <;> simp

/-- A two-checkpoint store holding trained AP and PA view models. -/
def c5env : String → Option LoadedModel :=
  fun s => if s = "ap.pt" ∨ s = "pa.pt" then some ⟨["Pneumonia", "Edema"]⟩
           else Option.none

/-- C5 witness: with both frontal checkpoints present in the store, the
multi-view loader still fails with the `NameError`. -/
theorem c5_load_multi_model_never_ok_witness :
    (∀ m, load_multi_model c5env "ap.pt" "pa.pt" "lat.pt" ≠ .ok m) ∧
    load_multi_model c5env "ap.pt" "pa.pt" "lat.pt" = .error .nameError :=
  ⟨(c5_load_multi_model_never_ok c5env "ap.pt" "pa.pt" "lat.pt").1,
   (c5_load_multi_model_never_ok c5env "ap.pt" "pa.pt" "lat.pt").2
     ⟨⟨["Pneumonia", "Edema"]⟩, rfl⟩ ⟨⟨["Pneumonia", "Edema"]⟩, rfl⟩⟩

/-- The five model-loading strategies of `test()` (`src/test.py:38-51`). -/
inductive Strategy where
  | multiView
  | csvReplay
  | externalEnsemble
  | ensembleList
  | single
  deriving DecidableEq

/-- Direct translation of the selection chain in `test()`
(`src/test.py:38-51`): first matching condition wins, in source order
`use_multi_model`, `use_csv_probs`, `config_path`, `ckpt_paths`, single. -/
def loadStrategy (use_multi_model use_csv_probs : Bool)
    (config_path : Option String) (ckpt_paths : List String) : Strategy :=
  if use_multi_model then .multiView
  else if use_csv_probs then .csvReplay
  else if config_path.isSome then .externalEnsemble
  else if !ckpt_paths.isEmpty then .ensembleList
  else .single

/-- The gate guarding metric computation and results-row writing in `test()`
(`src/test.py:116`): `args.config_path is None and not model_args.ckpt_paths`. -/
def computesMetrics (config_path : Option String) (ckpt_paths : List String) : Bool :=
  config_path.isNone && ckpt_paths.isEmpty

/-- C7 counterexample: a CSV-replay run that also carries a non-empty
checkpoint-path list — the model is loaded neither from an external ensemble
configuration nor from the checkpoint list, yet the gate skips metric
computation, refuting the claimed "if and only if". -/
theorem c7_counterexample :
    loadStrategy false true Option.none ["m1.pt"] = .csvReplay ∧
    computesMetrics Option.none ["m1.pt"] = false ∧
    ¬(computesMetrics Option.none ["m1.pt"] = true ↔
      (loadStrategy false true Option.none ["m1.pt"] ≠ .externalEnsemble ∧
       loadStrategy false true Option.none ["m1.pt"] ≠ .ensembleList)) := by
  refine ⟨rfl, rfl, ?_⟩
  intro hiff
  have h1 := hiff.mpr ⟨by decide, by decide⟩
  cases h1

/-- C7 (amended): metrics are computed and the results row written exactly
when no external ensemble configuration path is supplied and the
checkpoint-path list is empty; consequently every run loaded from an
external ensemble configuration or from a checkpoint list skips metric
computation, and every run that computes metrics was loaded by the
multi-view, CSV-replay or single-checkpoint path. -/
theorem c7_metric_gate (m v : Bool) (c : Option String) (ps : List String) :
    (computesMetrics c ps = true ↔ c = Option.none ∧ ps = []) ∧
    (loadStrategy m v c ps = .externalEnsemble ∨
      loadStrategy m v c ps = .ensembleList → computesMetrics c ps = false) ∧
    (computesMetrics c ps = true →
      loadStrategy m v c ps = .multiView ∨ loadStrategy m v c ps = .csvReplay ∨
      loadStrategy m v c ps = .single) := by
  cases c <;> cases ps <;> cases m <;> cases v <;>
    simp [loadStrategy, computesMetrics]

/-- C7 witness: the gate theorem applied to a plain single-checkpoint run —
the gate is open and the selected strategy is the single-model path. -/
theorem c7_metric_gate_witness :
    computesMetrics Option.none ([] : List String) = true ∧
    (loadStrategy false false Option.none [] = .multiView ∨
     loadStrategy false false Option.none [] = .csvReplay ∨
     loadStrategy false false Option.none [] = .single) :=
  ⟨(c7_metric_gate false false Option.none []).1.mpr ⟨rfl, rfl⟩,
   (c7_metric_gate false false Option.none []).2.2
     ((c7_metric_gate false false Option.none []).1.mpr ⟨rfl, rfl⟩)⟩

/-- The task-sequence name used by `test()` to build the results-row
columns (`src/test.py:139`): the fixed `'competition'` sequence when the
evaluated dataset is Stanford, the configured sequence otherwise. -/
def evaluate_task_sequence_name (dataset_name task_sequence : String) : String :=
  if dataset_name = "stanford" then "competition" else task_sequence

/-- The task sequence the evaluator scores against (`src/test.py:65`):
always the configured `data_args.task_sequence`. -/
def scoring_task_sequence (TS : String → List String) (task_sequence : String) :
    List String := TS task_sequence

/-- A registry fragment exhibiting distinct `competition` and `nih`
sequences. -/
def c10TS : String → List String :=
  fun s => if s = "competition" then ["Edema"]
           else if s = "nih" then ["Pneumonia"] else []

/-- C10: for Stanford runs the results writer builds columns from the fixed
`'competition'` sequence while every other dataset uses the configured
sequence; the evaluator always scores the configured sequence, so for a
Stanford run configured with a different sequence the column tasks and the
scored tasks differ. -/
theorem c10_stanford_column_tasks (TS : String → List String) (t d : String) :
    evaluate_task_sequence_name "stanford" t = "competition" ∧
    (d ≠ "stanford" → evaluate_task_sequence_name d t = t) ∧
    scoring_task_sequence TS t = TS t ∧
    c10TS (evaluate_task_sequence_name "stanford" "nih") ≠
      scoring_task_sequence c10TS "nih" := by
  refine ⟨rfl, fun hd => ?_, rfl, by decide⟩
  simp [evaluate_task_sequence_name, hd]

/-- C10 witness: the theorem applied to the NIH dataset name, whose columns
use the configured sequence. -/
theorem c10_stanford_column_tasks_witness :
    evaluate_task_sequence_name "stanford" "nih" = "competition" ∧
    (("nih" : String) ≠ "stanford" → evaluate_task_sequence_name "nih" "nih" = "nih") ∧
    scoring_task_sequence c10TS "nih" = c10TS "nih" ∧
    c10TS (evaluate_task_sequence_name "stanford" "nih") ≠
      scoring_task_sequence c10TS "nih" :=
  c10_stanford_column_tasks c10TS "nih" "nih"

/-!
`write_results` (`src/test.py:175-201`): the canonical results row.
-/

theorem dkeys_append (d₁ d₂ : Dict) : dkeys (d₁ ++ d₂) = dkeys d₁ ++ dkeys d₂ := by
  simp [dkeys]

theorem dset_not_mem_append (d : Dict) (k : String) (v : PyVal)
    (h : k ∉ dkeys d) : dset d k v = d ++ [(k, v)] := by
  induction d with
  | nil => rfl
  | cons p rest ih =>
    obtain ⟨k₀, w⟩ := p
    simp only [dkeys_cons, List.mem_cons, not_or] at h
    have hne : k₀ ≠ k := fun hh => h.1 hh.symm
    simp [dset, hne, ih h.2]

theorem dget_append_of_none (d₁ d₂ : Dict) (k : String)
    (h : dget d₁ k = Option.none) : dget (d₁ ++ d₂) k = dget d₂ k := by
  induction d₁ with
  | nil => rfl
  | cons p rest ih =>
    obtain ⟨k₀, w⟩ := p
    by_cases h₀ : k₀ = k
    · simp [dget, h₀] at h
    · simp only [dget, List.cons_append, if_neg h₀] at h ⊢
      exact ih h

theorem dget_map_cols (f : String → PyVal) :
    ∀ (cols : List String) (k : String), k ∈ cols →
    dget (cols.map (fun c => (c, f c))) k = some (f k) := by
  intro cols
  induction cols with
  | nil => intro k hk; cases hk
  | cons c cs ih =>
    intro k hk
    rcases List.mem_cons.mp hk with h1 | h1
    · subst h1; simp [dget]
    · by_cases h : c = k
      · subst h; simp [dget]
      · simp only [List.map_cons, dget, if_neg h]
        exact ih _ h1

theorem foldl_dset_fresh (f : String → PyVal) :
    ∀ (cols : List String) (base : Dict), cols.Nodup →
    (∀ c ∈ cols, c ∉ dkeys base) →
    cols.foldl (fun r c => dset r c (f c)) base =
      base ++ cols.map (fun c => (c, f c)) := by
  intro cols
  induction cols with
  | nil => intro base _ _; simp
  | cons c cs ih =>
    intro base hnd hfresh
    simp only [List.foldl_cons, List.map_cons]
    rw [dset_not_mem_append _ _ _ (hfresh c (List.mem_cons_self c cs))]
    rw [ih (base ++ [(c, f c)]) (List.nodup_cons.mp hnd).2 ?fresh]
    · simp
    case fresh =>
      intro x hx hmem
      rw [dkeys_append] at hmem
      rcases List.mem_append.mp hmem with hmem | hmem
      · exact hfresh x (List.mem_cons_of_mem _ hx) hmem
      · simp [dkeys] at hmem
        subst hmem
        exact (List.nodup_cons.mp hnd).1 hx

/-- The fixed ordered metric list of `test()` (`src/test.py:135`). -/
def eval_metrics_list : List String :=
  ["AUPRC", "AUROC", "log_loss", "rads_below_ROC", "rads_below_PR", "accuracy"]

/-- The results-row column list (`src/test.py:181-184`): `name`, `dataset`,
`epoch`, then one column `task ++ metric` per pair, metric-major (outer loop
over the metric list in declared order), task-minor (inner loop over the
task sequence in declared order). -/
def resultCols (eval_metrics : List String) (eval_tasks : List String) :
    List String :=
  ["name", "dataset", "epoch"] ++
    eval_metrics.flatMap (fun metric => eval_tasks.map (fun task => task ++ metric))

/-- The value recorded for a generic column (`src/test.py:192-196`): the
metrics-table entry for `"<dataset>-<split>_<column>"` verbatim when
present, the NaN "missing" sentinel when absent. -/
def genericCell (metrics : Dict) (dataset_name split col : String) : PyVal :=
  match dget metrics (dataset_name ++ "-" ++ split ++ "_" ++ col) with
  | some v => v
  | Option.none => .nan

/-- Direct translation of `write_results` (`src/test.py:175-201`) up to the
CSV serialization: builds the row dictionary.  The two distinguished
lookups `metrics[dataset + '-split_loss']` and `metrics[... weighted_loss]`
at lines 189-190 are plain subscripts, raising `KeyError` when the key is
absent; each generic column (lines 192-196) degrades to NaN instead. -/
def write_results (TS : String → List String) (dataset_name split : String)
    (eval_metrics : List String) (metrics : Dict) (name : String)
    (ckpt_epoch : PyVal) (evaluate_task_sequence : String) :
    Except PyErr Dict :=
  let eval_tasks := TS evaluate_task_sequence
  let cols := resultCols eval_metrics eval_tasks
  match dget metrics (dataset_name ++ "-" ++ split ++ "_loss"),
        dget metrics (dataset_name ++ "-" ++ split ++ "_weighted_loss") with
  | some l, some wl =>
    let row : Dict :=
      [("name", .str name), ("dataset", .str dataset_name),
       ("epoch", ckpt_epoch), (split ++ "_loss", l), ("weighted_loss", wl)]
    .ok ((cols.drop 3).foldl (fun r col =>
      match dget metrics (dataset_name ++ "-" ++ split ++ "_" ++ col) with
      | some v => dset r col v
      | Option.none => dset r col .nan) row)
  | _, _ => .error .keyError

/-- C4 counterexample: an empty metrics table — the claim's "for every
metrics table ... the write completes rather than raising" fails, because
the distinguished loss lookups at `test.py:189-190` are plain subscripts
and raise `KeyError` on a missing metric. -/
theorem c4_counterexample :
    write_results (fun _ => ["Pneumonia"]) "nih" "valid" eval_metrics_list
      [] "run" (.int 3) "nih" = .error .keyError := by
  rfl

/-- C4 (amended): whenever the metrics table does contain the two
distinguished loss keys, `write_results` completes and produces the row
whose fixed part is `name`, `dataset`, `epoch` and the two loss columns,
followed by every generic column of the metric-major, task-minor
enumeration in order; each generic column holds the metrics-table value
verbatim when its key `"<dataset>-<split>_<column>"` is present and the NaN
"missing" sentinel when absent — never omitted, never zero.  Without the
two loss keys the write raises (see the counterexample). -/
theorem c4_write_results_row (TS : String → List String)
    (dataset_name split name ets : String) (metrics : Dict) (ckpt_epoch : PyVal)
    (l wl : PyVal)
    (hl : dget metrics (dataset_name ++ "-" ++ split ++ "_loss") = some l)
    (hwl : dget metrics (dataset_name ++ "-" ++ split ++ "_weighted_loss") = some wl)
    (hnd : ((resultCols eval_metrics_list (TS ets)).drop 3).Nodup)
    (hfresh : ∀ c ∈ (resultCols eval_metrics_list (TS ets)).drop 3,
      c ≠ "name" ∧ c ≠ "dataset" ∧ c ≠ "epoch" ∧
      c ≠ split ++ "_loss" ∧ c ≠ "weighted_loss") :
    ∃ row : Dict,
      write_results TS dataset_name split eval_metrics_list metrics name
        ckpt_epoch ets = .ok row ∧
      row = [("name", .str name), ("dataset", .str dataset_name),
             ("epoch", ckpt_epoch), (split ++ "_loss", l), ("weighted_loss", wl)] ++
        ((resultCols eval_metrics_list (TS ets)).drop 3).map
          (fun col => (col, genericCell metrics dataset_name split col)) ∧
      (∀ col ∈ (resultCols eval_metrics_list (TS ets)).drop 3,
        dget row col = some (genericCell metrics dataset_name split col)) := by
  have hbody : (fun (r : Dict) (col : String) =>
      match dget metrics (dataset_name ++ "-" ++ split ++ "_" ++ col) with
      | some v => dset r col v
      | Option.none => dset r col .nan) =
      fun r col => dset r col (genericCell metrics dataset_name split col) := by
    funext r col
    unfold genericCell
    cases dget metrics (dataset_name ++ "-" ++ split ++ "_" ++ col) <;> rfl
  have hfix : ∀ c ∈ (resultCols eval_metrics_list (TS ets)).drop 3,
      c ∉ dkeys [("name", PyVal.str name), ("dataset", PyVal.str dataset_name),
        ("epoch", ckpt_epoch), (split ++ "_loss", l), ("weighted_loss", wl)] := by
    intro c hc hmem
    obtain ⟨n1, n2, n3, n4, n5⟩ := hfresh c hc
    simp [dkeys] at hmem
    rcases hmem with h | h | h | h | h
    exacts [n1 h, n2 h, n3 h, n4 h, n5 h]
  have heq := foldl_dset_fresh (genericCell metrics dataset_name split)
    ((resultCols eval_metrics_list (TS ets)).drop 3)
    [("name", PyVal.str name), ("dataset", PyVal.str dataset_name),
     ("epoch", ckpt_epoch), (split ++ "_loss", l), ("weighted_loss", wl)]
    hnd hfix
  refine ⟨[("name", PyVal.str name), ("dataset", PyVal.str dataset_name),
      ("epoch", ckpt_epoch), (split ++ "_loss", l), ("weighted_loss", wl)] ++
      ((resultCols eval_metrics_list (TS ets)).drop 3).map
        (fun col => (col, genericCell metrics dataset_name split col)),
      ?_, rfl, ?_⟩
  · unfold write_results
    rw [hl, hwl]
    simp only [hbody]
    rw [heq]
  · intro col hcol
    have hfixnone : dget [("name", PyVal.str name), ("dataset", PyVal.str dataset_name),
        ("epoch", ckpt_epoch), (split ++ "_loss", l), ("weighted_loss", wl)] col =
        Option.none := by
      obtain ⟨n1, n2, n3, n4, n5⟩ := hfresh col hcol
      simp [dget, Ne.symm n1, Ne.symm n2, Ne.symm n3, Ne.symm n4, Ne.symm n5]
    rw [dget_append_of_none _ _ _ hfixnone]
    exact dget_map_cols _ _ _ hcol

/-- The single-task registry used by the concrete C4 run. -/
def c4TS : String → List String := fun _ => ["Pneumonia"]

/-- A metrics table for an NIH validation run holding the two distinguished
loss keys and exactly two of the six expected generic metric keys. -/
def c4metrics : Dict :=
  [("nih-valid_loss", .int 7), ("nih-valid_weighted_loss", .int 8),
   ("nih-valid_PneumoniaAUPRC", .int 1), ("nih-valid_Pneumoniaaccuracy", .int 2)]

/-- C4 witness: the amended theorem applied to the concrete NIH run with
two of six generic metrics present — the write completes and every generic
column is present, verbatim or NaN. -/
theorem c4_write_results_row_witness :
    ∃ row : Dict,
      write_results c4TS "nih" "valid" eval_metrics_list c4metrics "run"
        (.int 3) "nih" = .ok row ∧
      row = [("name", .str "run"), ("dataset", .str "nih"),
             ("epoch", .int 3), ("valid" ++ "_loss", .int 7), ("weighted_loss", .int 8)] ++
        ((resultCols eval_metrics_list (c4TS "nih")).drop 3).map
          (fun col => (col, genericCell c4metrics "nih" "valid" col)) ∧
      (∀ col ∈ (resultCols eval_metrics_list (c4TS "nih")).drop 3,
        dget row col = some (genericCell c4metrics "nih" "valid" col)) :=
  c4_write_results_row c4TS "nih" "valid" "run" "nih" c4metrics (.int 3)
    (.int 7) (.int 8) rfl rfl (by decide) (by decide)

/-!
`BaseArgParser.fix_nested_namespaces` (`src/args/base_arg_parser.py:185-208`)
and the un-flatten / re-flatten round trip.
-/

/-- Number of group separators in a key. -/
def dotCount (s : String) : Nat := s.data.count '.'

/-- The group part of `key.split('.')` for a single-separator key: the
characters before the first separator. -/
def splitGroup (s : String) : String := ⟨s.data.takeWhile (fun c => c ≠ '.')⟩

/-- The field part of `key.split('.')` for a single-separator key: the
characters after the first separator. -/
def splitField (s : String) : String :=
  ⟨(s.data.dropWhile (fun c => c ≠ '.')).drop 1⟩

/-- Python `'.' in key` on the modelled key. -/
def hasDot (s : String) : Bool := s.data.contains '.'

/-- The `group_name_keys` collection loop (`base_arg_parser.py:195-200`):
every key containing a separator contributes `(group, name, key)`, in
insertion order; `group, name = key.split('.')` raises `ValueError` ("too
many values to unpack") on a key with more than one separator — only one
nesting level is supported. -/
def collectTriples : Dict → Except PyErr (List (String × String × String))
  | [] => .ok []
  | (k, _) :: rest =>
    if hasDot k then
      if dotCount k = 1 then
        match collectTriples rest with
        | .ok ts => .ok ((splitGroup k, splitField k, k) :: ts)
        | .error e => .error e
      else .error (.valueError "too many values to unpack")
    else collectTriples rest

/-- One iteration of the mutation loop (`base_arg_parser.py:203-208`):
create the group entry as an empty namespace when the group is not a key of
the namespace, set the field on the group's value — an `AttributeError`
when that value is not a namespace — and delete the flat key. -/
def applyTripleGNK (d : Dict) (g n k : String) : Except PyErr Dict :=
  let d1 := if (dget d g).isSome then d else d ++ [(g, .dict [])]
  match dget d1 g, dget d1 k with
  | some (.dict m), some v => .ok (ddel (dset d1 g (.dict (dset m n v))) k)
  | some _, some _ => .error .attributeError
  | _, _ => .error .keyError

/-- The same step on a collected `(group, name, key)` triple. -/
def applyTriple (d : Dict) (t : String × String × String) : Except PyErr Dict :=
  applyTripleGNK d t.1 t.2.1 t.2.2

/-- The mutation loop over all collected triples, in order. -/
def applyTriples : List (String × String × String) → Dict → Except PyErr Dict
  | [], d => .ok d
  | t :: ts, d =>
    match applyTriple d t with
    | .ok d' => applyTriples ts d'
    | .error e => .error e

/-- Direct translation of `fix_nested_namespaces`
(`base_arg_parser.py:185-208`): collect the dotted keys, then move each
under its group. -/
def fix_nested_namespaces (d : Dict) : Except PyErr Dict :=
  match collectTriples d with
  | .ok ts => applyTriples ts d
  | .error e => .error e

/-- Whether a value is a namespace/dictionary. -/
def isDictV : PyVal → Bool
  | .dict _ => true
  | _ => false

/-- Re-flattening, stated from the claim: rejoin every nested group/field
pair with the separator, leaving non-namespace entries as they are. -/
def reflatten (d : Dict) : Dict :=
  d.flatMap (fun kv => match kv.2 with
    | .dict m => m.map (fun fw => (kv.1 ++ "." ++ fw.1, fw.2))
    | _ => [kv])

/-- C9 counterexample: the raw map with keys `a` (no separator) and `a.b`
(one separator) satisfies the claim's hypothesis, yet un-flattening raises
`AttributeError` — line 207 sets attribute `b` on the existing value `1` of
key `a`, which is not a namespace — so the round trip does not reconstruct
the original pairs. -/
theorem c9_counterexample :
    fix_nested_namespaces [("a", .int 1), ("a.b", .int 2)] =
      .error .attributeError := by
  rfl

theorem ddel_of_not_mem (d : Dict) (k : String) (h : k ∉ dkeys d) :
    ddel d k = d := by
  induction d with
  | nil => rfl
  | cons p rest ih =>
    obtain ⟨k₀, w⟩ := p
    simp only [dkeys_cons, List.mem_cons, not_or] at h
    have hne : k₀ ≠ k := fun hh => h.1 hh.symm
    simp [ddel, hne, ih h.2]

theorem perm_cons_ddel (d : Dict) (k : String) (v : PyVal)
    (hnd : (dkeys d).Nodup) (h : dget d k = some v) :
    d.Perm ((k, v) :: ddel d k) := by
  induction d with
  | nil => simp [dget] at h
  | cons p rest ih =>
    obtain ⟨k₀, w⟩ := p
    simp only [dkeys_cons, List.nodup_cons] at hnd
    by_cases h₀ : k₀ = k
    · subst h₀
      have hv : w = v := by simpa [dget] using h
      subst hv
      have hdel : ddel ((k₀, w) :: rest) k₀ = rest := by
        simp [ddel, ddel_of_not_mem rest k₀ hnd.1]
      rw [hdel]
    · have h' : dget rest k = some v := by simpa [dget, h₀] using h
      have hrest := ih hnd.2 h'
      have hstep : ((k₀, w) :: rest).Perm ((k₀, w) :: (k, v) :: ddel rest k) :=
        hrest.cons _
      have hswap : ((k₀, w) :: (k, v) :: ddel rest k).Perm
          ((k, v) :: (k₀, w) :: ddel rest k) := List.Perm.swap _ _ _
      have hdel : (k, v) :: (k₀, w) :: ddel rest k =
          (k, v) :: ddel ((k₀, w) :: rest) k := by simp [ddel, h₀]
      rw [← hdel]
      exact hstep.trans hswap

theorem permFlatMap {α β : Type _} (f : α → List β) {l₁ l₂ : List α}
    (p : l₁.Perm l₂) : (l₁.flatMap f).Perm (l₂.flatMap f) := by
  induction p with
  | nil => exact List.Perm.refl _
  | cons x p ih => simpa [List.flatMap_cons] using ih.append_left (f x)
  | swap x y l =>
    simp only [List.flatMap_cons, ← List.append_assoc]
    exact (List.perm_append_comm).append_right _
  | trans p₁ p₂ ih₁ ih₂ => exact ih₁.trans ih₂

theorem dget_append_left (d₁ d₂ : Dict) (k : String) (v : PyVal)
    (h : dget d₁ k = some v) : dget (d₁ ++ d₂) k = some v := by
  induction d₁ with
  | nil => simp [dget] at h
  | cons p rest ih =>
    obtain ⟨k₀, w⟩ := p
    by_cases h₀ : k₀ = k
    · subst h₀
      simp [dget] at h ⊢
      exact h
    · simp only [dget, List.cons_append, if_neg h₀] at h ⊢
      exact ih h

theorem dget_of_mem_nodup (d : Dict) (k : String) (v : PyVal)
    (hnd : (dkeys d).Nodup) (h : (k, v) ∈ d) : dget d k = some v := by
  induction d with
  | nil => cases h
  | cons p rest ih =>
    obtain ⟨k₀, w⟩ := p
    simp only [dkeys_cons, List.nodup_cons] at hnd
    rcases List.mem_cons.mp h with h1 | h1
    · cases h1
      simp [dget]
    · have hk : k₀ ≠ k := by
        intro hh
        subst hh
        exact hnd.1 (by simpa [dkeys] using List.mem_map_of_mem Prod.fst h1)
      simp only [dget, if_neg hk]
      exact ih hnd.2 h1

theorem exists_split_of_dget (d : Dict) (g : String) (w : PyVal)
    (h : dget d g = some w) :
    ∃ d₁ d₂, d = d₁ ++ (g, w) :: d₂ ∧ g ∉ dkeys d₁ := by
  induction d with
  | nil => simp [dget] at h
  | cons p rest ih =>
    obtain ⟨k₀, w₀⟩ := p
    by_cases h₀ : k₀ = g
    · subst h₀
      have hv : w₀ = w := by simpa [dget] using h
      subst hv
      exact ⟨[], rest, rfl, by simp [dkeys]⟩
    · have h' : dget rest g = some w := by simpa [dget, h₀] using h
      obtain ⟨d₁, d₂, heq, hmem⟩ := ih h'
      refine ⟨(k₀, w₀) :: d₁, d₂, by rw [heq]; rfl, ?_⟩
      simp only [dkeys_cons, List.mem_cons, not_or]
      exact ⟨fun hh => h₀ hh.symm, hmem⟩

theorem dset_split (d₁ d₂ : Dict) (g : String) (w w' : PyVal)
    (h : g ∉ dkeys d₁) :
    dset (d₁ ++ (g, w) :: d₂) g w' = d₁ ++ (g, w') :: d₂ := by
  induction d₁ with
  | nil => simp [dset]
  | cons p rest ih =>
    obtain ⟨k₀, w₀⟩ := p
    simp only [dkeys_cons, List.mem_cons, not_or] at h
    have hne : k₀ ≠ g := fun hh => h.1 hh.symm
    simp [dset, hne, ih h.2]

theorem ddel_append (x y : Dict) (k : String) :
    ddel (x ++ y) k = ddel x k ++ ddel y k := by
  induction x with
  | nil => rfl
  | cons p rest ih =>
    obtain ⟨k₀, w⟩ := p
    by_cases h : k₀ = k <;> simp [ddel, h, ih]

theorem reflatten_append (x y : Dict) :
    reflatten (x ++ y) = reflatten x ++ reflatten y := by
  simp [reflatten]

theorem reflatten_cons_flat (k : String) (v : PyVal) (d : Dict)
    (h : isDictV v = false) :
    reflatten ((k, v) :: d) = (k, v) :: reflatten d := by
  cases v <;> simp_all [reflatten, isDictV]

theorem reflatten_cons_dict (k : String) (m : List (String × PyVal)) (d : Dict) :
    reflatten ((k, .dict m) :: d) =
      m.map (fun fw => (k ++ "." ++ fw.1, fw.2)) ++ reflatten d := by
  simp [reflatten]

theorem reflatten_eq_self (d : Dict) (h : ∀ kv ∈ d, isDictV kv.2 = false) :
    reflatten d = d := by
  induction d with
  | nil => rfl
  | cons kv rest ih =>
    obtain ⟨k, v⟩ := kv
    rw [reflatten_cons_flat k v rest (h _ (List.mem_cons_self _ _)),
      ih (fun kv hkv => h kv (List.mem_cons_of_mem _ hkv))]

theorem dkeys_dset_mem (d : Dict) (k : String) (v : PyVal)
    (h : k ∈ dkeys d) : dkeys (dset d k v) = dkeys d := by
  induction d with
  | nil => simp [dkeys] at h
  | cons p rest ih =>
    obtain ⟨k₀, w⟩ := p
    by_cases h₀ : k₀ = k
    · simp [dset, h₀, dkeys_cons]
    · have h' : k ∈ dkeys rest := by
        rcases List.mem_cons.mp h with h1 | h1
        · exact absurd h1.symm h₀
        · exact h1
      simp [dset, h₀, dkeys_cons, ih h']

theorem hasDot_iff (s : String) : hasDot s = true ↔ '.' ∈ s.data := by
  simp [hasDot]

theorem split_chars (l : List Char) (h : '.' ∈ l) :
    l = l.takeWhile (fun c => c ≠ '.') ++
      '.' :: ((l.dropWhile (fun c => c ≠ '.')).drop 1) ∧
    '.' ∉ l.takeWhile (fun c => c ≠ '.') := by
  induction l with
  | nil => cases h
  | cons c rest ih =>
    by_cases hc : c = '.'
    · subst hc
      refine ⟨?_, ?_⟩ <;> simp [List.takeWhile_cons, List.dropWhile_cons]
    · rcases List.mem_cons.mp h with h1 | h1
      · exact absurd h1.symm hc
      · obtain ⟨ih1, ih2⟩ := ih h1
        refine ⟨?_, ?_⟩
        · simp [List.takeWhile_cons, List.dropWhile_cons, hc]
          simpa using ih1
        · simp [List.takeWhile_cons, hc, List.mem_cons, not_or]
          exact ⟨fun hh => hc hh.symm, by simpa using ih2⟩

/-- The list of `(group, name, key)` triples the collection loop produces on
an error-free namespace: one per dotted key, in insertion order. -/
def dottedTriples (d : Dict) : List (String × String × String) :=
  d.filterMap (fun kv => if hasDot kv.1 then
    some (splitGroup kv.1, splitField kv.1, kv.1) else Option.none)

theorem collectTriples_eq (d : Dict) (h : ∀ kv ∈ d, dotCount kv.1 ≤ 1) :
    collectTriples d = .ok (dottedTriples d) := by
  induction d with
  | nil => rfl
  | cons kv rest ih =>
    obtain ⟨k, v⟩ := kv
    have hrest := ih (fun kv hkv => h kv (List.mem_cons_of_mem _ hkv))
    by_cases hd : hasDot k = true
    · have h1 : dotCount k = 1 := by
        have hle : dotCount k ≤ 1 := h (k, v) (List.mem_cons_self _ _)
        have hge : 0 < dotCount k :=
          List.count_pos_iff.mpr ((hasDot_iff k).mp hd)
        omega
      simp [collectTriples, dottedTriples, hd, h1, hrest, List.filterMap_cons]
    · simp [collectTriples, dottedTriples, hd, hrest, List.filterMap_cons]

theorem dottedTriples_keys (d : Dict) :
    (dottedTriples d).map (fun t => t.2.2) =
      (dkeys d).filter (fun k => hasDot k) := by
  induction d with
  | nil => rfl
  | cons kv rest ih =>
    obtain ⟨k, v⟩ := kv
    simp only [dottedTriples, List.filterMap_cons, dkeys_cons,
      List.filter_cons] at ih ⊢
    by_cases hd : hasDot k = true <;> simp [hd, ih]

theorem dget_append_cases (x y : Dict) (k : String) (v : PyVal)
    (h : dget (x ++ y) k = some v) :
    dget x k = some v ∨ (dget x k = Option.none ∧ dget y k = some v) := by
  cases hx : dget x k with
  | some w =>
    left
    have hxy := dget_append_left x y k w hx
    obtain rfl : w = v := Option.some.inj (hxy.symm.trans h)
    rfl
  | none =>
    right
    exact ⟨rfl, by rwa [dget_append_of_none x y k hx] at h⟩

theorem reflatten_perm {d₁ d₂ : Dict} (h : d₁.Perm d₂) :
    (reflatten d₁).Perm (reflatten d₂) := permFlatMap _ h

theorem applyTriple_fresh (d : Dict) (g n k : String) (v : PyVal)
    (hgv : dget d g = Option.none) (hv : dget d k = some v) (hkg : k ≠ g) :
    applyTriple d (g, n, k) = .ok (ddel d k ++ [(g, PyVal.dict [(n, v)])]) := by
  have hgnotmem : g ∉ dkeys d := (dget_eq_none_iff d g).mp hgv
  have hd1g : dget (d ++ [(g, PyVal.dict [])]) g = some (PyVal.dict []) := by
    simp [dget_append_of_none _ _ _ hgv, dget]
  have hd1k : dget (d ++ [(g, PyVal.dict [])]) k = some v :=
    dget_append_left _ _ _ _ hv
  have hsetfull : dset (d ++ [(g, PyVal.dict [])]) g (PyVal.dict [(n, v)]) =
      d ++ [(g, PyVal.dict [(n, v)])] :=
    dset_split d [] g (PyVal.dict []) (PyVal.dict [(n, v)]) hgnotmem
  show applyTripleGNK d g n k = _
  unfold applyTripleGNK
  simp only [hgv, Option.isSome_none, Bool.false_eq_true, if_false, hd1g, hd1k]
  rw [show PyVal.dict (dset [] n v) = PyVal.dict [(n, v)] from rfl]
  rw [hsetfull, ddel_append]
  rw [ddel_of_not_mem [(g, PyVal.dict [(n, v)])] k
    (by simp [dkeys]; exact hkg)]

theorem applyTriple_dict (d : Dict) (g n k : String) (v : PyVal)
    (m : List (String × PyVal))
    (hgv : dget d g = some (PyVal.dict m)) (hv : dget d k = some v)
    (hnm : n ∉ dkeys m) (hkg : k ≠ g) :
    ∃ d₁ d₂, d = d₁ ++ (g, PyVal.dict m) :: d₂ ∧ g ∉ dkeys d₁ ∧
      applyTriple d (g, n, k) =
        .ok (ddel d₁ k ++ (g, PyVal.dict (m ++ [(n, v)])) :: ddel d₂ k) := by
  obtain ⟨d₁, d₂, heq, hgd₁⟩ := exists_split_of_dget d g (PyVal.dict m) hgv
  refine ⟨d₁, d₂, heq, hgd₁, ?_⟩
  have hsetm : dset m n v = m ++ [(n, v)] := dset_not_mem_append m n v hnm
  have hsetd : dset d g (PyVal.dict (m ++ [(n, v)])) =
      d₁ ++ (g, PyVal.dict (m ++ [(n, v)])) :: d₂ := by
    rw [heq]
    exact dset_split d₁ d₂ g _ _ hgd₁
  show applyTripleGNK d g n k = _
  unfold applyTripleGNK
  simp only [hgv, Option.isSome_some, if_true, hv]
  rw [show PyVal.dict (dset m n v) = PyVal.dict (m ++ [(n, v)]) from by rw [hsetm]]
  rw [hsetd, ddel_append]
  rw [show ddel ((g, PyVal.dict (m ++ [(n, v)])) :: d₂) k =
      (g, PyVal.dict (m ++ [(n, v)])) :: ddel d₂ k from by
    have hgk : g ≠ k := fun hh => hkg hh.symm
    simp [ddel, hgk]]

theorem applyTriples_cons_ok (t : String × String × String)
    (ts : List (String × String × String)) (d d2 : Dict)
    (h : applyTriple d t = .ok d2) :
    applyTriples (t :: ts) d = applyTriples ts d2 := by
  simp [applyTriples, h]

theorem perm_juggle {α : Type _} (A A' M B : List α) (a : α)
    (h : A.Perm (a :: A')) :
    (A' ++ ((M ++ [a]) ++ B)).Perm (A ++ (M ++ B)) := by
  have e1 : A' ++ ((M ++ [a]) ++ B) = (A' ++ M) ++ a :: B := by simp
  have h1 : ((A' ++ M) ++ a :: B).Perm (a :: ((A' ++ M) ++ B)) := List.perm_middle
  have h2 : (A ++ (M ++ B)).Perm ((a :: A') ++ (M ++ B)) := h.append_right _
  have e2 : (a :: A') ++ (M ++ B) = a :: ((A' ++ M) ++ B) := by simp
  rw [e1]
  rw [e2] at h2
  exact h1.trans h2.symm

theorem perm_juggle2 {α : Type _} (A M B B' : List α) (a : α)
    (h : B.Perm (a :: B')) :
    (A ++ ((M ++ [a]) ++ B')).Perm (A ++ (M ++ B)) := by
  refine List.Perm.append_left A ?_
  have e1 : (M ++ [a]) ++ B' = M ++ a :: B' := by simp
  rw [e1]
  exact List.Perm.append_left M h.symm

set_option maxHeartbeats 1000000 in
theorem applyTriples_perm (ts : List (String × String × String)) :
    ∀ (d : Dict),
    (dkeys d).Nodup →
    (∀ t ∈ ts, (t.2.2 : String).data =
      (t.1 : String).data ++ '.' :: (t.2.1 : String).data) →
    (∀ t ∈ ts, '.' ∉ (t.1 : String).data) →
    (∀ t ∈ ts, ∃ v, dget d t.2.2 = some v ∧ isDictV v = false) →
    (∀ t ∈ ts, ∀ w, dget d t.1 = some w → ∃ m, w = PyVal.dict m) →
    (∀ t ∈ ts, ∀ m, dget d t.1 = some (PyVal.dict m) → t.2.1 ∉ dkeys m) →
    (ts.map (fun t => t.2.2)).Nodup →
    ∃ d', applyTriples ts d = .ok d' ∧ (reflatten d').Perm (reflatten d) := by
  induction ts with
  | nil =>
    intro d _ _ _ _ _ _ _
    exact ⟨d, rfl, List.Perm.refl _⟩
  | cons t ts ih =>
    intro d hnd hA2 hA3 hA4 hA6 hA5 hA7
    obtain ⟨g, n, k⟩ := t
    have hk2 : k.data = g.data ++ '.' :: n.data := hA2 _ (List.mem_cons_self _ _)
    have hg3 : '.' ∉ g.data := hA3 _ (List.mem_cons_self _ _)
    obtain ⟨v, hv, hvflat⟩ := hA4 _ (List.mem_cons_self _ _)
    have hkdot : '.' ∈ k.data := by
      rw [hk2]
      exact List.mem_append_right _ (List.mem_cons_self _ _)
    have hkg : k ≠ g := fun hh => hg3 (hh ▸ hkdot)
    have hdotstr : ("." : String).data = ['.'] := rfl
    have hkey : g ++ "." ++ n = k := by
      apply String.ext
      rw [hk2]
      simp [String.data_append, hdotstr]
    have hA7' : k ∉ ts.map (fun t => t.2.2) ∧ (ts.map (fun t => t.2.2)).Nodup := by
      simpa using hA7
    have htne : ∀ t' ∈ ts, (t'.2.2 : String) ≠ k := by
      intro t' ht' hh
      exact hA7'.1 (hh ▸ List.mem_map_of_mem (fun t => t.2.2) ht')
    have htdot : ∀ t' ∈ ts, '.' ∈ (t'.2.2 : String).data := by
      intro t' ht'
      rw [hA2 _ (List.mem_cons_of_mem _ ht')]
      exact List.mem_append_right _ (List.mem_cons_self _ _)
    have htgne : ∀ t' ∈ ts, (t'.2.2 : String) ≠ g := by
      intro t' ht' hh
      exact hg3 (hh ▸ htdot t' ht')
    cases hgv : dget d g with
    | none =>
      have happly := applyTriple_fresh d g n k v hgv hv hkg
      have hgnotmem : g ∉ dkeys d := (dget_eq_none_iff d g).mp hgv
      set d2 : Dict := ddel d k ++ [(g, PyVal.dict [(n, v)])] with hd2
      have htrans : ∀ x : String, x ≠ k →
          dget d2 x = if x = g then some (PyVal.dict [(n, v)]) else dget d x := by
        intro x hx
        by_cases hxg : x = g
        · subst hxg
          rw [if_pos rfl, hd2]
          have h1 : dget (ddel d k) x = dget d x := dget_ddel_ne d k x (Ne.symm hx)
          rw [dget_append_of_none _ _ _ (h1.trans hgv)]
          simp [dget]
        · rw [if_neg hxg, hd2]
          have h1 : dget (ddel d k) x = dget d x := dget_ddel_ne d k x (Ne.symm hx)
          cases hdx : dget d x with
          | none =>
            rw [dget_append_of_none _ _ _ (h1.trans hdx)]
            simp [dget, Ne.symm hxg]
          | some w' =>
            rw [dget_append_left _ _ _ _ (h1.trans hdx)]
      have hnd2 : (dkeys d2).Nodup := by
        rw [hd2, dkeys_append]
        refine (nodup_dkeys_ddel d k hnd).append ?_ ?_
        · simp [dkeys]
        · intro x hx hmem
          simp [dkeys] at hmem
          subst hmem
          rw [dkeys_ddel] at hx
          exact hgnotmem (List.mem_of_mem_filter hx)
      have hA4' : ∀ t' ∈ ts, ∃ v', dget d2 t'.2.2 = some v' ∧ isDictV v' = false := by
        intro t' ht'
        obtain ⟨v', hv', hfl⟩ := hA4 _ (List.mem_cons_of_mem _ ht')
        refine ⟨v', ?_, hfl⟩
        rw [htrans _ (htne t' ht'), if_neg (htgne t' ht')]
        exact hv'
      have hA6' : ∀ t' ∈ ts, ∀ w, dget d2 t'.1 = some w → ∃ m, w = PyVal.dict m := by
        intro t' ht' w hw
        have hg'dot : '.' ∉ (t'.1 : String).data := hA3 _ (List.mem_cons_of_mem _ ht')
        have hg'k : (t'.1 : String) ≠ k := fun hh => hg'dot (hh.symm ▸ hkdot)
        rw [htrans _ hg'k] at hw
        by_cases hgg : t'.1 = g
        · rw [if_pos hgg] at hw
          exact ⟨[(n, v)], (Option.some.inj hw).symm⟩
        · rw [if_neg hgg] at hw
          exact hA6 _ (List.mem_cons_of_mem _ ht') w hw
      have hA5' : ∀ t' ∈ ts, ∀ m', dget d2 t'.1 = some (PyVal.dict m') →
          t'.2.1 ∉ dkeys m' := by
        intro t' ht' m' hm
        have hg'dot : '.' ∉ (t'.1 : String).data := hA3 _ (List.mem_cons_of_mem _ ht')
        have hg'k : (t'.1 : String) ≠ k := fun hh => hg'dot (hh.symm ▸ hkdot)
        rw [htrans _ hg'k] at hm
        by_cases hgg : t'.1 = g
        · rw [if_pos hgg] at hm
          have hmeq : m' = [(n, v)] := (PyVal.dict.inj (Option.some.inj hm)).symm
          subst hmeq
          intro hmem
          simp [dkeys] at hmem
          have hk'2 := hA2 _ (List.mem_cons_of_mem _ ht')
          have hkk : (t'.2.2 : String) = k := by
            apply String.ext
            rw [hk'2, hk2, hgg, hmem]
          exact htne t' ht' hkk
        · rw [if_neg hgg] at hm
          exact hA5 _ (List.mem_cons_of_mem _ ht') m' hm
      obtain ⟨d', happs, hperm⟩ := ih d2 hnd2
        (fun t' ht' => hA2 _ (List.mem_cons_of_mem _ ht'))
        (fun t' ht' => hA3 _ (List.mem_cons_of_mem _ ht'))
        hA4' hA6' hA5' hA7'.2
      refine ⟨d', ?_, ?_⟩
      · rw [applyTriples_cons_ok _ _ _ _ happly]
        exact happs
      · have hsingle : reflatten [(g, PyVal.dict [(n, v)])] = [(k, v)] := by
          simp [reflatten, hkey]
        have hstep : (reflatten d2).Perm (reflatten d) := by
          rw [hd2, reflatten_append, hsingle]
          have h1 : (reflatten (ddel d k) ++ [(k, v)]).Perm
              ((k, v) :: reflatten (ddel d k)) := List.perm_append_singleton _ _
          have h2 : (reflatten d).Perm ((k, v) :: reflatten (ddel d k)) := by
            have hp := reflatten_perm (perm_cons_ddel d k v hnd hv)
            rwa [reflatten_cons_flat k v _ hvflat] at hp
          exact h1.trans h2.symm
        exact hperm.trans hstep
    | some w =>
      obtain ⟨m, rfl⟩ := hA6 _ (List.mem_cons_self _ _) w hgv
      have hnm : n ∉ dkeys m := hA5 _ (List.mem_cons_self _ _) m hgv
      obtain ⟨d₁, dd₂, heqd, hgd₁, happly⟩ :=
        applyTriple_dict d g n k v m hgv hv hnm hkg
      set d2 : Dict := ddel d₁ k ++ (g, PyVal.dict (m ++ [(n, v)])) :: ddel dd₂ k
        with hd2
      have hndparts : (dkeys d₁).Nodup ∧ (dkeys dd₂).Nodup ∧ g ∉ dkeys d₁ ∧
          g ∉ dkeys dd₂ ∧ (dkeys d₁).Disjoint (dkeys dd₂) := by
        have hh := hnd
        rw [heqd, dkeys_append, dkeys_cons, List.nodup_append] at hh
        obtain ⟨h1, h2, h3⟩ := hh
        rw [List.nodup_cons] at h2
        refine ⟨h1, h2.2, ?_, h2.1, ?_⟩
        · intro hgmem
          exact h3 hgmem (List.mem_cons_self _ _)
        · intro x hx1 hx2
          exact h3 hx1 (List.mem_cons_of_mem _ hx2)
      have htrans : ∀ x : String, x ≠ k → x ≠ g → dget d2 x = dget d x := by
        intro x hxk hxg
        rw [hd2, heqd]
        cases hdx : dget d₁ x with
        | some w' =>
          rw [dget_append_left _ _ _ _
            (by rw [dget_ddel_ne d₁ k x (Ne.symm hxk)]; exact hdx)]
          rw [dget_append_left _ _ _ _ hdx]
        | none =>
          have hdelx : dget (ddel d₁ k) x = Option.none := by
            rw [dget_ddel_ne d₁ k x (Ne.symm hxk)]
            exact hdx
          rw [dget_append_of_none _ _ _ hdelx, dget_append_of_none _ _ _ hdx]
          have hgx : ¬ g = x := fun hh => hxg hh.symm
          simp only [dget, if_neg hgx]
          exact dget_ddel_ne dd₂ k x (Ne.symm hxk)
      have htransg : dget d2 g = some (PyVal.dict (m ++ [(n, v)])) := by
        rw [hd2]
        have hdelg : dget (ddel d₁ k) g = Option.none := by
          rw [dget_ddel_ne d₁ k g hkg]
          exact (dget_eq_none_iff d₁ g).mpr hndparts.2.2.1
        rw [dget_append_of_none _ _ _ hdelg]
        simp [dget]
      have hnd2 : (dkeys d2).Nodup := by
        rw [hd2, dkeys_append, dkeys_cons, List.nodup_append]
        refine ⟨nodup_dkeys_ddel d₁ k hndparts.1, ?_, ?_⟩
        · rw [List.nodup_cons]
          refine ⟨?_, nodup_dkeys_ddel dd₂ k hndparts.2.1⟩
          intro hgmem
          rw [dkeys_ddel] at hgmem
          exact hndparts.2.2.2.1 (List.mem_of_mem_filter hgmem)
        · intro x hx1 hx2
          rw [dkeys_ddel] at hx1
          have hx1' := List.mem_of_mem_filter hx1
          rcases List.mem_cons.mp hx2 with hxg | hx2'
          · subst hxg
            exact hndparts.2.2.1 hx1'
          · rw [dkeys_ddel] at hx2'
            exact hndparts.2.2.2.2 hx1' (List.mem_of_mem_filter hx2')
      have hA4' : ∀ t' ∈ ts, ∃ v', dget d2 t'.2.2 = some v' ∧ isDictV v' = false := by
        intro t' ht'
        obtain ⟨v', hv', hfl⟩ := hA4 _ (List.mem_cons_of_mem _ ht')
        refine ⟨v', ?_, hfl⟩
        rw [htrans _ (htne t' ht') (htgne t' ht')]
        exact hv'
      have hA6' : ∀ t' ∈ ts, ∀ w', dget d2 t'.1 = some w' →
          ∃ m', w' = PyVal.dict m' := by
        intro t' ht' w' hw'
        have hg'dot : '.' ∉ (t'.1 : String).data := hA3 _ (List.mem_cons_of_mem _ ht')
        have hg'k : (t'.1 : String) ≠ k := fun hh => hg'dot (hh.symm ▸ hkdot)
        by_cases hgg : t'.1 = g
        · rw [hgg, htransg] at hw'
          exact ⟨m ++ [(n, v)], (Option.some.inj hw').symm⟩
        · rw [htrans _ hg'k hgg] at hw'
          exact hA6 _ (List.mem_cons_of_mem _ ht') w' hw'
      have hA5' : ∀ t' ∈ ts, ∀ m', dget d2 t'.1 = some (PyVal.dict m') →
          t'.2.1 ∉ dkeys m' := by
        intro t' ht' m' hm'
        have hg'dot : '.' ∉ (t'.1 : String).data := hA3 _ (List.mem_cons_of_mem _ ht')
        have hg'k : (t'.1 : String) ≠ k := fun hh => hg'dot (hh.symm ▸ hkdot)
        by_cases hgg : t'.1 = g
        · rw [hgg, htransg] at hm'
          have hmeq : m' = m ++ [(n, v)] := (PyVal.dict.inj (Option.some.inj hm')).symm
          subst hmeq
          rw [dkeys_append]
          intro hmem
          rcases List.mem_append.mp hmem with hmm | hmm
          · exact hA5 _ (List.mem_cons_of_mem _ ht') m (hgg.symm ▸ hgv) hmm
          · simp [dkeys] at hmm
            have hk'2 := hA2 _ (List.mem_cons_of_mem _ ht')
            have hkk : (t'.2.2 : String) = k := by
              apply String.ext
              rw [hk'2, hk2, hgg, hmm]
            exact htne t' ht' hkk
        · rw [htrans _ hg'k hgg] at hm'
          exact hA5 _ (List.mem_cons_of_mem _ ht') m' hm'
      obtain ⟨d', happs, hperm⟩ := ih d2 hnd2
        (fun t' ht' => hA2 _ (List.mem_cons_of_mem _ ht'))
        (fun t' ht' => hA3 _ (List.mem_cons_of_mem _ ht'))
        hA4' hA6' hA5' hA7'.2
      refine ⟨d', ?_, ?_⟩
      · rw [applyTriples_cons_ok _ _ _ _ happly]
        exact happs
      · have hMdef : (m ++ [(n, v)]).map
            (fun fw => (g ++ "." ++ fw.1, fw.2)) =
            m.map (fun fw => (g ++ "." ++ fw.1, fw.2)) ++ [(k, v)] := by
          rw [List.map_append]
          simp [hkey]
        have hrd2 : reflatten d2 = reflatten (ddel d₁ k) ++
            ((m.map (fun fw => (g ++ "." ++ fw.1, fw.2)) ++ [(k, v)]) ++
              reflatten (ddel dd₂ k)) := by
          rw [hd2, reflatten_append, reflatten_cons_dict, hMdef]
        have hrd : reflatten d = reflatten d₁ ++
            (m.map (fun fw => (g ++ "." ++ fw.1, fw.2)) ++ reflatten dd₂) := by
          rw [heqd, reflatten_append, reflatten_cons_dict]
        have hsplit := dget_append_cases d₁ ((g, PyVal.dict m) :: dd₂) k v
          (by rw [← heqd]; exact hv)
        have hstep : (reflatten d2).Perm (reflatten d) := by
          rcases hsplit with hk1 | ⟨hk1none, hk2'⟩
          · have hkd₁ : k ∈ dkeys d₁ := by
              by_contra hcon
              rw [(dget_eq_none_iff d₁ k).mpr hcon] at hk1
              cases hk1
            have hkdd₂ : k ∉ dkeys dd₂ := fun hcon => hndparts.2.2.2.2 hkd₁ hcon
            have hddel₂ : ddel dd₂ k = dd₂ := ddel_of_not_mem _ _ hkdd₂
            have hpermd₁ : (reflatten d₁).Perm ((k, v) :: reflatten (ddel d₁ k)) := by
              have hp := reflatten_perm (perm_cons_ddel d₁ k v hndparts.1 hk1)
              rwa [reflatten_cons_flat k v _ hvflat] at hp
            rw [hrd2, hrd, hddel₂]
            exact perm_juggle _ _ _ _ _ hpermd₁
          · have hk2'' : dget dd₂ k = some v := by
              have hgk : g ≠ k := fun hh => hkg hh.symm
              simpa [dget, hgk] using hk2'
            have hddel₁ : ddel d₁ k = d₁ :=
              ddel_of_not_mem _ _ ((dget_eq_none_iff d₁ k).mp hk1none)
            have hpermd₂ : (reflatten dd₂).Perm
                ((k, v) :: reflatten (ddel dd₂ k)) := by
              have hp := reflatten_perm (perm_cons_ddel dd₂ k v hndparts.2.1 hk2'')
              rwa [reflatten_cons_flat k v _ hvflat] at hp
            rw [hrd2, hrd, hddel₁]
            exact perm_juggle2 _ _ _ _ _ hpermd₂
        exact hperm.trans hstep

/-- C9 (amended): for every raw argument map with duplicate-free keys, at
most one group separator per key, no namespace-valued entries (a raw map),
and — as the counterexample forces — no key that is also the group prefix
of a dotted key, un-flattening succeeds and re-flattening its result is a
permutation of the original flat key/value pairs: no key lost, none
duplicated, no value changed. -/
theorem c9_roundtrip (d : Dict)
    (hnd : (dkeys d).Nodup)
    (hdots : ∀ kv ∈ d, dotCount (kv.1 : String) ≤ 1)
    (hraw : ∀ kv ∈ d, isDictV kv.2 = false)
    (hgroups : ∀ kv ∈ d, hasDot (kv.1 : String) = true →
      splitGroup kv.1 ∉ dkeys d) :
    ∃ d', fix_nested_namespaces d = .ok d' ∧ (reflatten d').Perm d := by
  have hcollect := collectTriples_eq d hdots
  have hmemtriples : ∀ t ∈ dottedTriples d, ∃ v, ((t.2.2 : String), v) ∈ d ∧
      hasDot t.2.2 = true ∧ t.1 = splitGroup t.2.2 ∧ t.2.1 = splitField t.2.2 := by
    intro t ht
    unfold dottedTriples at ht
    obtain ⟨⟨k', v'⟩, hmem, hsome⟩ := List.mem_filterMap.mp ht
    by_cases hk' : hasDot k' = true
    · rw [if_pos hk'] at hsome
      have he := Option.some.inj hsome
      subst he
      exact ⟨v', hmem, hk', rfl, rfl⟩
    · rw [if_neg hk'] at hsome
      cases hsome
  have hA2 : ∀ t ∈ dottedTriples d, (t.2.2 : String).data =
      (t.1 : String).data ++ '.' :: (t.2.1 : String).data := by
    intro t ht
    obtain ⟨v, hmem, hdot, hg, hn⟩ := hmemtriples t ht
    have hsp := split_chars (t.2.2 : String).data ((hasDot_iff _).mp hdot)
    rw [hg, hn]
    exact hsp.1
  have hA3 : ∀ t ∈ dottedTriples d, '.' ∉ (t.1 : String).data := by
    intro t ht
    obtain ⟨v, hmem, hdot, hg, hn⟩ := hmemtriples t ht
    have hsp := split_chars (t.2.2 : String).data ((hasDot_iff _).mp hdot)
    rw [hg]
    exact hsp.2
  have hA4 : ∀ t ∈ dottedTriples d,
      ∃ v, dget d t.2.2 = some v ∧ isDictV v = false := by
    intro t ht
    obtain ⟨v, hmem, _, _, _⟩ := hmemtriples t ht
    exact ⟨v, dget_of_mem_nodup d _ v hnd hmem, hraw _ hmem⟩
  have hA6 : ∀ t ∈ dottedTriples d, ∀ w, dget d t.1 = some w →
      ∃ m, w = PyVal.dict m := by
    intro t ht w hw
    obtain ⟨v, hmem, hdot, hg, _⟩ := hmemtriples t ht
    have hnone : dget d t.1 = Option.none := by
      rw [hg]
      exact (dget_eq_none_iff _ _).mpr (hgroups _ hmem hdot)
    rw [hnone] at hw
    cases hw
  have hA5 : ∀ t ∈ dottedTriples d, ∀ m, dget d t.1 = some (PyVal.dict m) →
      t.2.1 ∉ dkeys m := by
    intro t ht m hm
    obtain ⟨v, hmem, hdot, hg, _⟩ := hmemtriples t ht
    have hnone : dget d t.1 = Option.none := by
      rw [hg]
      exact (dget_eq_none_iff _ _).mpr (hgroups _ hmem hdot)
    rw [hnone] at hm
    cases hm
  have hA7 : ((dottedTriples d).map (fun t => t.2.2)).Nodup := by
    rw [dottedTriples_keys]
    exact hnd.filter _
  obtain ⟨d', happ, hperm⟩ :=
    applyTriples_perm (dottedTriples d) d hnd hA2 hA3 hA4 hA6 hA5 hA7
  refine ⟨d', ?_, ?_⟩
  · unfold fix_nested_namespaces
    rw [hcollect]
    exact happ
  · rw [reflatten_eq_self d hraw] at hperm
    exact hperm

/-- A concrete raw argument map with plain and singly-nested keys, as the
argument parser produces. -/
def c9raw : Dict :=
  [("batch_size", .int 16),
   ("model_args.model", .str "DenseNet121"),
   ("model_args.pretrained", .bool true),
   ("transform_args.scale", .int 320)]

/-- C9 witness: the round-trip theorem applied to the concrete raw map —
un-flattening succeeds and re-flattening reconstructs exactly the original
pairs. -/
theorem c9_roundtrip_witness :
    ∃ d', fix_nested_namespaces c9raw = .ok d' ∧ (reflatten d').Perm c9raw :=
  c9_roundtrip c9raw (by decide) (by decide) (by decide) (by decide)
